import Mathlib

/-!
Verification of the 2D affine image transform engine (package `graphics`,
file `affine.go`).

Float64 values are modelled by `Graphics.FP`: exact rationals plus the IEEE
special values `+Inf`, `-Inf` and `NaN`, with IEEE rules for the special
values (NaN propagates and compares false; `0 * Inf = NaN`; a nonzero
finite value divided by zero gives a signed infinity; `0 / 0 = NaN`).
Finite arithmetic is exact: none of the properties checked here depends on
rounding, and signed zero is collapsed to a single zero. Integer
coordinates are modelled by `Int` and colors by quadruples of naturals.
-/

namespace Graphics

/-- Model of a float64 value: an exact finite rational or one of the IEEE
special values. -/
inductive FP where
  | finite (q : ℚ)
  | inf
  | ninf
  | nan
deriving DecidableEq

namespace FP

/-- True exactly on finite values (neither infinite nor NaN). -/
def isFinite : FP → Bool
  | finite _ => true
  | _ => false

/-- IEEE negation. -/
def neg : FP → FP
  | finite q => finite (-q)
  | inf => ninf
  | ninf => inf
  | nan => nan

/-- IEEE addition, exact on finite values. -/
def add : FP → FP → FP
  | nan, _ => nan
  | _, nan => nan
  | inf, ninf => nan
  | ninf, inf => nan
  | inf, _ => inf
  | _, inf => inf
  | ninf, _ => ninf
  | _, ninf => ninf
  | finite a, finite b => finite (a + b)

/-- IEEE subtraction. -/
def sub (x y : FP) : FP := add x (neg y)

/-- IEEE multiplication, exact on finite values; `0 * Inf = NaN`. -/
def mul : FP → FP → FP
  | nan, _ => nan
  | _, nan => nan
  | inf, inf => inf
  | inf, ninf => ninf
  | ninf, inf => ninf
  | ninf, ninf => inf
  | inf, finite q => if q = 0 then nan else if 0 < q then inf else ninf
  | finite q, inf => if q = 0 then nan else if 0 < q then inf else ninf
  | ninf, finite q => if q = 0 then nan else if 0 < q then ninf else inf
  | finite q, ninf => if q = 0 then nan else if 0 < q then ninf else inf
  | finite a, finite b => finite (a * b)

/-- IEEE division, exact on finite values; a nonzero finite value divided
by zero (the single zero, standing for `+0`) is a signed infinity and
`0 / 0 = NaN`. -/
def div : FP → FP → FP
  | nan, _ => nan
  | _, nan => nan
  | inf, inf => nan
  | inf, ninf => nan
  | ninf, inf => nan
  | ninf, ninf => nan
  | inf, finite q => if 0 ≤ q then inf else ninf
  | ninf, finite q => if 0 ≤ q then ninf else inf
  | finite _, inf => finite 0
  | finite _, ninf => finite 0
  | finite a, finite b =>
      if b = 0 then (if a = 0 then nan else if 0 < a then inf else ninf)
      else finite (a / b)

/-- IEEE strict order as a Bool; any comparison with NaN is false. -/
def lt : FP → FP → Bool
  | nan, _ => false
  | _, nan => false
  | ninf, ninf => false
  | ninf, _ => true
  | _, ninf => false
  | inf, _ => false
  | finite _, inf => true
  | finite a, finite b => decide (a < b)

/-- IEEE non-strict order as a Bool; any comparison with NaN is false. -/
def le : FP → FP → Bool
  | nan, _ => false
  | _, nan => false
  | ninf, _ => true
  | _, ninf => false
  | _, inf => true
  | inf, _ => false
  | finite a, finite b => decide (a ≤ b)

/-- The Go comparison `x >= y`. -/
def ge (x y : FP) : Bool := le y x

/-- The Go conversion `float64(n)` for an int, exact at our magnitudes. -/
def ofInt (n : Int) : FP := finite (n : ℚ)

end FP

/-- The float64 constant 0. -/
def fp0 : FP := FP.finite 0

/-- The float64 constant 1. -/
def fp1 : FP := FP.finite 1

/-- The float64 constant 2. -/
def fp2 : FP := FP.finite 2

/-- The float64 constant 0.5. -/
def fphalf : FP := FP.finite (1/2)

/-- Affine is a 3x3 2D affine transform matrix; field `mi` is the Go array
entry `a[i]`, row major. -/
structure Affine where
  m0 : FP
  m1 : FP
  m2 : FP
  m3 : FP
  m4 : FP
  m5 : FP
  m6 : FP
  m7 : FP
  m8 : FP
deriving DecidableEq

/-- I is the identity Affine transform matrix. -/
def I : Affine := ⟨fp1, fp0, fp0, fp0, fp1, fp0, fp0, fp0, fp1⟩

/-- Mul returns the multiplication of two affine transform matrices
(entry by entry as written in the Go source, sums associated to the
left). -/
def Affine.Mul (a b : Affine) : Affine :=
  ⟨FP.add (FP.add (FP.mul a.m0 b.m0) (FP.mul a.m1 b.m3)) (FP.mul a.m2 b.m6),
   FP.add (FP.add (FP.mul a.m0 b.m1) (FP.mul a.m1 b.m4)) (FP.mul a.m2 b.m7),
   FP.add (FP.add (FP.mul a.m0 b.m2) (FP.mul a.m1 b.m5)) (FP.mul a.m2 b.m8),
   FP.add (FP.add (FP.mul a.m3 b.m0) (FP.mul a.m4 b.m3)) (FP.mul a.m5 b.m6),
   FP.add (FP.add (FP.mul a.m3 b.m1) (FP.mul a.m4 b.m4)) (FP.mul a.m5 b.m7),
   FP.add (FP.add (FP.mul a.m3 b.m2) (FP.mul a.m4 b.m5)) (FP.mul a.m5 b.m8),
   FP.add (FP.add (FP.mul a.m6 b.m0) (FP.mul a.m7 b.m3)) (FP.mul a.m8 b.m6),
   FP.add (FP.add (FP.mul a.m6 b.m1) (FP.mul a.m7 b.m4)) (FP.mul a.m8 b.m7),
   FP.add (FP.add (FP.mul a.m6 b.m2) (FP.mul a.m7 b.m5)) (FP.mul a.m8 b.m8)⟩

/-- An axis-aligned integer rectangle, half open: the model of
`image.Rectangle` as used by this file (Min/Max points flattened). -/
structure Rect where
  minX : Int
  minY : Int
  maxX : Int
  maxY : Int
deriving DecidableEq

/-- The Go method `Rectangle.Dx()`. -/
def Rect.Dx (r : Rect) : Int := r.maxX - r.minX

/-- The Go method `Rectangle.Dy()`. -/
def Rect.Dy (r : Rect) : Int := r.maxY - r.minY

/-- The bounds check of the pipeline, as written in the Go source:
reject when `x < Min.X` or `x >= Max.X`, then the same for `y`,
with IEEE comparison semantics. -/
def inBounds (b : Rect) (x y : FP) : Bool :=
  if FP.lt x (FP.ofInt b.minX) || FP.ge x (FP.ofInt b.maxX) then false
  else if FP.lt y (FP.ofInt b.minY) || FP.ge y (FP.ofInt b.maxY) then false
  else true

/-- The per-pixel coordinate map `a.pt(x0, y0)` from the Go source. -/
def Affine.pt (a : Affine) (x0 y0 : Int) : FP × FP :=
  let fx := FP.add (FP.ofInt x0) fphalf
  let fy := FP.add (FP.ofInt y0) fphalf
  (FP.add (FP.add (FP.mul fx a.m0) (FP.mul fy a.m1)) a.m2,
   FP.add (FP.add (FP.mul fx a.m3) (FP.mul fy a.m4)) a.m5)

/-- Scale produces a scaling transform of factors x and y. -/
def Affine.Scale (a : Affine) (x y : FP) : Affine :=
  a.Mul ⟨FP.div fp1 x, fp0, fp0,
         fp0, FP.div fp1 y, fp0,
         fp0, fp0, fp1⟩

/-- Rotate produces a clockwise rotation transform. The Go source obtains
`s, c := math.Sincos(angle)` from the standard library, an external
transcendental kernel outside this core; the pair `(s, c)` is therefore
passed in directly and the rest of the body is modelled exactly. -/
def Affine.Rotate (a : Affine) (s c : FP) : Affine :=
  a.Mul ⟨c, s, fp0,
         FP.neg s, c, fp0,
         fp0, fp0, fp1⟩

/-- Shear produces a shear transform by the slopes x and y. -/
def Affine.Shear (a : Affine) (x y : FP) : Affine :=
  let d := FP.sub fp1 (FP.mul x y)
  a.Mul ⟨FP.div fp1 d, FP.div (FP.neg x) d, fp0,
         FP.div (FP.neg y) d, FP.div fp1 d, fp0,
         fp0, fp0, fp1⟩

/-- Translate produces a translation transform with pixel distances x and y. -/
def Affine.Translate (a : Affine) (x y : FP) : Affine :=
  a.Mul ⟨fp1, fp0, FP.neg x,
         fp0, fp1, FP.neg y,
         fp0, fp0, fp1⟩

/-- Center produces the affine transform, centered around the provided point. -/
def Affine.Center (a : Affine) (x y : FP) : Affine :=
  ((I.Translate (FP.neg x) (FP.neg y)).Mul a).Translate x y

/-- CenterFit produces the affine transform, centered around the rectangles. -/
def Affine.CenterFit (a : Affine) (dst src : Rect) : Affine :=
  let dx := FP.add (FP.ofInt dst.minX) (FP.div (FP.ofInt dst.Dx) fp2)
  let dy := FP.add (FP.ofInt dst.minY) (FP.div (FP.ofInt dst.Dy) fp2)
  let sx := FP.add (FP.ofInt src.minX) (FP.div (FP.ofInt src.Dx) fp2)
  let sy := FP.add (FP.ofInt src.minY) (FP.div (FP.ofInt src.Dy) fp2)
  ((I.Translate (FP.neg sx) (FP.neg sy)).Mul a).Translate dx dy

/-- An RGBA color value, one natural per 8-bit channel. -/
structure Color where
  r : Nat
  g : Nat
  b : Nat
  a : Nat
deriving DecidableEq

/-- The zero (transparent) color a freshly allocated RGBA buffer holds. -/
def zeroColor : Color := ⟨0, 0, 0, 0⟩

/-- Membership of an integer pixel coordinate in a rectangle. -/
def inRect (b : Rect) (x y : Int) : Bool :=
  decide (b.minX ≤ x) && decide (x < b.maxX) &&
  decide (b.minY ≤ y) && decide (y < b.maxY)

/-- A raster image: bounds, the color at each coordinate, and whether the
value is already a canonical `*image.RGBA` buffer (the type switch
`dst.(*image.RGBA)` in the Go source). Nil image references are modelled
by `Option Image` at the call sites. -/
structure Image where
  bounds : Rect
  pix : Int → Int → Color
  isRGBA : Bool

/-- A sampler in the shape the pipeline uses one: given the destination
coordinate, the (normalized) source pixel buffer and the fractional source
coordinate, produce the one color written at the destination coordinate. -/
def Sampler : Type := Int → Int → (Int → Int → Color) → FP → FP → Color

/-- Truncation of a float coordinate to an integer index (finite values
floor; special values are mapped to 0, only relevant to the modelled
sampler below). -/
def FP.toIdx : FP → Int
  | FP.finite q => ⌊q⌋
  | _ => 0

/-- Modelled from the spec: `binterpRGBA`, the interpolation/sampling
routine, is outside the core and not present under src (§6 treats it as an
opaque black-box dependency that deterministically computes one color from
the source buffer and a fractional coordinate and writes exactly one
destination pixel). It is modelled as a deterministic point sample at the
floor of the coordinate, which satisfies that contract. -/
def binterpRGBA : Sampler := fun _ _ srcPix sx sy => srcPix sx.toIdx sy.toIdx

/-- The normalization of the source image performed by the Go source: a
canonical RGBA source is used directly; any other source is copied into a
freshly allocated (zeroed) RGBA buffer of the same bounds, so pixels
outside the source bounds read as zero. -/
def normalizedSrcPix (s : Image) : Int → Int → Color :=
  if s.isRGBA then s.pix
  else fun x y => if inRect s.bounds x y then s.pix x y else zeroColor

/-- The state of the destination image after the pixel loop of
`Transform` on non-nil arguments, pixel by pixel. A canonical RGBA
destination is written in place, so a pixel whose transformed point fails
the bounds check keeps its prior value; a non-canonical destination is
realized as a freshly allocated zeroed scratch buffer whose whole bounds
rectangle is copied back after the loop, so such a pixel receives the
scratch value `zeroColor` instead. -/
def applyTransform (sampler : Sampler) (a : Affine) (d s : Image) : Image :=
  { d with pix := fun x y =>
      if inRect d.bounds x y then
        let p := a.pt x y
        if inBounds s.bounds p.1 p.2 then sampler x y (normalizedSrcPix s) p.1 p.2
        else if d.isRGBA then d.pix x y else zeroColor
      else d.pix x y }

/-- The error message for a nil destination. -/
def dstNilErr : String := "graphics: dst is nil"

/-- The error message for a nil source. -/
def srcNilErr : String := "graphics: src is nil"

/-- Transform applies the affine transform to src and produces dst
(`Affine.Transform` in the Go source, with the sampler passed as the
injected capability of §6 of the spec; the Go source fixes it to
`binterpRGBA`). A nil argument yields the corresponding error, checked in
the same order as the source; otherwise the resulting destination state is
returned. -/
def Transform (sampler : Sampler) (a : Affine) (dst src : Option Image) :
    Except String Image :=
  match dst with
  | none => Except.error dstNilErr
  | some d =>
    match src with
    | none => Except.error srcNilErr
    | some s => Except.ok (applyTransform sampler a d s)

/-- TransformCenter applies the affine transform to src and produces dst,
equivalent to `a.CenterFit(dst.Bounds(), src.Bounds()).Transform(dst, src)`
after its own nil checks. -/
def TransformCenter (sampler : Sampler) (a : Affine) (dst src : Option Image) :
    Except String Image :=
  match dst with
  | none => Except.error dstNilErr
  | some d =>
    match src with
    | none => Except.error srcNilErr
    | some s => Transform sampler (a.CenterFit d.bounds s.bounds) (some d) (some s)

/-- The affine map of the spec applied to a continuous point: first
coordinate `x*M[0] + y*M[1] + M[2]`, second `x*M[3] + y*M[4] + M[5]`. -/
def applyPoint (a : Affine) (x y : FP) : FP × FP :=
  (FP.add (FP.add (FP.mul x a.m0) (FP.mul y a.m1)) a.m2,
   FP.add (FP.add (FP.mul x a.m3) (FP.mul y a.m4)) a.m5)

/-- The scale matrix in the words of the spec: `diag(1/sx, 1/sy, 1)`. -/
def specScaleM (x y : FP) : Affine :=
  ⟨FP.div fp1 x, fp0, fp0,
   fp0, FP.div fp1 y, fp0,
   fp0, fp0, fp1⟩

/-- The shear matrix in the words of the spec: compute `d = 1 - x*y` and
divide the shear entries by `d`. -/
def specShearM (x y : FP) : Affine :=
  let d := FP.sub fp1 (FP.mul x y)
  ⟨FP.div fp1 d, FP.div (FP.neg x) d, fp0,
   FP.div (FP.neg y) d, FP.div fp1 d, fp0,
   fp0, fp0, fp1⟩

/-- The horizontal centroid of a rectangle in the words of the spec and of
claim C6: `Min.X + Dx()/2` in float arithmetic. -/
def centroidX (r : Rect) : FP :=
  FP.add (FP.ofInt r.minX) (FP.div (FP.ofInt r.Dx) fp2)

/-- The vertical centroid of a rectangle: `Min.Y + Dy()/2`. -/
def centroidY (r : Rect) : FP :=
  FP.add (FP.ofInt r.minY) (FP.div (FP.ofInt r.Dy) fp2)

/-- The bottom row of a matrix is exactly `(0, 0, 1)`. -/
def hasAffineBottom (a : Affine) : Prop :=
  a.m6 = fp0 ∧ a.m7 = fp0 ∧ a.m8 = fp1

instance (a : Affine) : Decidable (hasAffineBottom a) := by
  unfold hasAffineBottom
  infer_instance

/-- The six entries of the top two rows are all finite. -/
def topFinite (a : Affine) : Bool :=
  a.m0.isFinite && a.m1.isFinite && a.m2.isFinite &&
  a.m3.isFinite && a.m4.isFinite && a.m5.isFinite

/-- A one-pixel non-canonical destination image holding a sentinel color,
with bounds `[0,1) × [0,1)`. -/
def cexDst : Image := ⟨⟨0, 0, 1, 1⟩, fun _ _ => ⟨7, 7, 7, 7⟩, false⟩

/-- A one-pixel canonical RGBA destination image holding a sentinel color,
with bounds `[0,1) × [0,1)`. -/
def wDst : Image := ⟨⟨0, 0, 1, 1⟩, fun _ _ => ⟨7, 7, 7, 7⟩, true⟩

/-- A one-pixel source image with bounds `[5,6) × [5,6)`, disjoint from the
transformed destination points of `cexDst` under the identity matrix. -/
def cexSrc : Image := ⟨⟨5, 5, 6, 6⟩, fun _ _ => ⟨1, 2, 3, 4⟩, true⟩

/-!
Helper lemmas.
-/

/-- A value with `isFinite` true is a `finite` rational. -/
theorem FP.isFinite_elim {x : FP} (h : x.isFinite = true) : ∃ q, x = FP.finite q := by
  cases x <;> simp_all [FP.isFinite]

/-- Negation preserves finiteness. -/
theorem FP.isFinite_neg (x : FP) : (FP.neg x).isFinite = x.isFinite := by
  cases x <;> rfl

/-- The identity matrix has affine bottom row. -/
theorem I_bottom : hasAffineBottom I := ⟨rfl, rfl, rfl⟩

/-- Multiplying a matrix with affine bottom row by one with affine bottom
row and finite upper entries keeps the bottom row exactly `(0, 0, 1)`. -/
theorem mul_bottom {a b : Affine} (ha : hasAffineBottom a) (hb : hasAffineBottom b)
    (hf : topFinite b = true) : hasAffineBottom (a.Mul b) := by
  obtain ⟨ha6, ha7, ha8⟩ := ha
  obtain ⟨hb6, hb7, hb8⟩ := hb
  simp only [topFinite, Bool.and_eq_true] at hf
  obtain ⟨⟨⟨⟨⟨h0, h1⟩, h2⟩, h3⟩, h4⟩, h5⟩ := hf
  obtain ⟨q0, e0⟩ := FP.isFinite_elim h0
  obtain ⟨q1, e1⟩ := FP.isFinite_elim h1
  obtain ⟨q2, e2⟩ := FP.isFinite_elim h2
  obtain ⟨q3, e3⟩ := FP.isFinite_elim h3
  obtain ⟨q4, e4⟩ := FP.isFinite_elim h4
  obtain ⟨q5, e5⟩ := FP.isFinite_elim h5
  refine ⟨?_, ?_, ?_⟩ <;>
    simp [Affine.Mul, ha6, ha7, ha8, hb6, hb7, hb8, e0, e1, e2, e3, e4, e5,
      FP.mul, FP.add, fp0, fp1]

/-- Translation by finite offsets preserves the affine bottom row. -/
theorem translate_bottom {a : Affine} {x y : FP} (ha : hasAffineBottom a)
    (hx : x.isFinite = true) (hy : y.isFinite = true) :
    hasAffineBottom (a.Translate x y) :=
  mul_bottom ha ⟨rfl, rfl, rfl⟩ (by
    simp only [topFinite, Bool.and_eq_true, FP.isFinite_neg]
    exact ⟨⟨⟨⟨⟨rfl, rfl⟩, hx⟩, rfl⟩, rfl⟩, hy⟩)

/-- Rectangle centroids — an integer plus an integer halved — are finite
floats. -/
theorem ofInt_add_div2_finite (n m : Int) :
    ((FP.ofInt n).add ((FP.ofInt m).div fp2)).isFinite = true := by
  have h2 : (2 : ℚ) ≠ 0 := by norm_num
  simp [FP.ofInt, FP.div, FP.add, FP.isFinite, fp2, h2]

/-!
Claim theorems.
-/

/-- C3: `Transform(a, dst, src)` returns an error exactly on a nil
argument — a nil `dst` yields the dst error (checked first), a nil `src`
yields the src error, and for non-nil arguments the call succeeds,
returning the transformed destination state; the error paths return
before any pixel work, performing no write. -/
theorem transform_nil_check : ∀ (sampler : Graphics.Sampler) (a : Graphics.Affine),
    (∀ src, Graphics.Transform sampler a none src = Except.error Graphics.dstNilErr) ∧
    (∀ d, Graphics.Transform sampler a (some d) none = Except.error Graphics.srcNilErr) ∧
    (∀ d s, Graphics.Transform sampler a (some d) (some s) =
      Except.ok (Graphics.applyTransform sampler a d s)) := by
  intro sampler a
  exact ⟨fun _ => rfl, fun _ => rfl, fun _ _ => rfl⟩

/-- C4: `a.pt(x0, y0)` is exactly the affine matrix applied to the pixel
center `(x0 + 0.5, y0 + 0.5)`, i.e. the pair
`((x0+0.5)*a0 + (y0+0.5)*a1 + a2, (x0+0.5)*a3 + (y0+0.5)*a4 + a5)`. -/
theorem pt_pixel_center : ∀ (a : Graphics.Affine) (x0 y0 : Int),
    a.pt x0 y0 =
      Graphics.applyPoint a
        (Graphics.FP.add (Graphics.FP.ofInt x0) Graphics.fphalf)
        (Graphics.FP.add (Graphics.FP.ofInt y0) Graphics.fphalf) := by
  intro a x0 y0
  rfl

/-- C6: `CenterFit(a, dst, src)` equals
`I.Translate(-sx, -sy).Mul(a).Translate(dx, dy)` where `(dx, dy)` is the
destination rectangle centroid `(Min.X + Dx()/2, Min.Y + Dy()/2)` placed
as the right-hand factor (output side) and `(sx, sy)` is the source
rectangle centroid placed as the left-hand factor (input side). -/
theorem centerFit_translations : ∀ (a : Graphics.Affine) (dst src : Graphics.Rect),
    a.CenterFit dst src =
      ((Graphics.I.Translate
          (Graphics.FP.neg (Graphics.centroidX src))
          (Graphics.FP.neg (Graphics.centroidY src))).Mul a).Translate
        (Graphics.centroidX dst) (Graphics.centroidY dst) := by
  intro a dst src
  rfl

/-- C7: `Scale(a, x, y)` equals `a.Mul(S)` with
`S = {1/x, 0, 0, 0, 1/y, 0, 0, 0, 1}` — the reciprocal convention — and at
`x = y = 0` no error occurs: the reciprocal entries of `S` are `+Inf`. -/
theorem scale_reciprocal :
    (∀ (a : Graphics.Affine) (x y : Graphics.FP),
      a.Scale x y = a.Mul (Graphics.specScaleM x y)) ∧
    (Graphics.specScaleM Graphics.fp0 Graphics.fp0).m0 = Graphics.FP.inf ∧
    (Graphics.specScaleM Graphics.fp0 Graphics.fp0).m4 = Graphics.FP.inf := by
  refine ⟨fun a x y => rfl, ?_, ?_⟩ <;>
    norm_num [Graphics.specScaleM, Graphics.FP.div, Graphics.fp0, Graphics.fp1]

/-- C8: `Shear(a, x, y)` is total — it always returns `a.Mul(M)` where `M`
is built from `d = 1 - x*y` by dividing the shear entries by `d` — and at
the degenerate input `x = y = 1` (so `x*y = 1`, `d = 0`) no failure
occurs: the divided entries of `M` are `±Inf` and the resulting matrix
contains non-finite entries (here NaN, from `0 * ±Inf` in the product). -/
theorem shear_total_degenerate :
    (∀ (a : Graphics.Affine) (x y : Graphics.FP),
      a.Shear x y = a.Mul (Graphics.specShearM x y)) ∧
    (Graphics.specShearM Graphics.fp1 Graphics.fp1).m0 = Graphics.FP.inf ∧
    (Graphics.specShearM Graphics.fp1 Graphics.fp1).m1 = Graphics.FP.ninf ∧
    (Graphics.I.Shear Graphics.fp1 Graphics.fp1).m0.isFinite = false ∧
    (Graphics.I.Shear Graphics.fp1 Graphics.fp1).m4.isFinite = false := by
  refine ⟨fun a x y => rfl, ?_, ?_, ?_, ?_⟩ <;>
    norm_num [Graphics.specShearM, Graphics.Affine.Shear, Graphics.Affine.Mul, Graphics.I,
      Graphics.FP.div, Graphics.FP.sub, Graphics.FP.mul, Graphics.FP.add, Graphics.FP.neg,
      Graphics.FP.isFinite, Graphics.fp0, Graphics.fp1]

/-- C9: on non-nil images, `TransformCenter(a, dst, src)` returns the same
result and the same destination state as
`a.CenterFit(dst.Bounds(), src.Bounds()).Transform(dst, src)`. -/
theorem transformCenter_refines :
    ∀ (sampler : Graphics.Sampler) (a : Graphics.Affine) (d s : Graphics.Image),
    Graphics.TransformCenter sampler a (some d) (some s) =
      Graphics.Transform sampler (a.CenterFit d.bounds s.bounds) (some d) (some s) := by
  intro sampler a d s
  rfl

/-- C10: `TransformCenter` performs its own nil checks before touching the
images: a nil `dst` or nil `src` yields the corresponding error directly
(no bounds are read — the error is produced from the nil reference alone)
and no write is performed. -/
theorem transformCenter_nil_check : ∀ (sampler : Graphics.Sampler) (a : Graphics.Affine),
    (∀ src, Graphics.TransformCenter sampler a none src = Except.error Graphics.dstNilErr) ∧
    (∀ d, Graphics.TransformCenter sampler a (some d) none = Except.error Graphics.srcNilErr) := by
  intro sampler a
  exact ⟨fun _ => rfl, fun _ => rfl⟩

/-- C1 (counterexample): for a non-canonical destination the claim fails —
here the destination pixel `(0,0)` of `cexDst` is inside the destination
bounds, its transformed point under the identity matrix fails the source
bounds check against `cexSrc`, yet after the call the pixel does not equal
its prior sentinel value (it is zero, copied back from the fresh scratch
buffer). -/
theorem transform_oob_pixel_cex :
    Graphics.inRect Graphics.cexDst.bounds 0 0 = true ∧
    Graphics.inBounds Graphics.cexSrc.bounds
      (Graphics.I.pt 0 0).1 (Graphics.I.pt 0 0).2 = false ∧
    Graphics.Transform Graphics.binterpRGBA Graphics.I
      (some Graphics.cexDst) (some Graphics.cexSrc) =
      Except.ok (Graphics.applyTransform Graphics.binterpRGBA Graphics.I
        Graphics.cexDst Graphics.cexSrc) ∧
    (Graphics.applyTransform Graphics.binterpRGBA Graphics.I
      Graphics.cexDst Graphics.cexSrc).pix 0 0 ≠ Graphics.cexDst.pix 0 0 := by
  refine ⟨rfl, ?_, rfl, ?_⟩
  · norm_num [Graphics.inBounds, Graphics.Affine.pt, Graphics.I, Graphics.cexSrc,
      Graphics.FP.add, Graphics.FP.mul, Graphics.FP.ofInt, Graphics.FP.lt, Graphics.FP.ge,
      Graphics.FP.le, Graphics.fphalf, Graphics.fp0, Graphics.fp1]
  · norm_num [Graphics.applyTransform, Graphics.inRect, Graphics.inBounds,
      Graphics.Affine.pt, Graphics.I, Graphics.cexDst, Graphics.cexSrc, Graphics.zeroColor,
      Graphics.FP.add, Graphics.FP.mul, Graphics.FP.ofInt, Graphics.FP.lt, Graphics.FP.ge,
      Graphics.FP.le, Graphics.fphalf, Graphics.fp0, Graphics.fp1]

/-- C1 (amended): for non-nil images the call succeeds, and a destination
pixel inside the destination bounds whose transformed point fails the
source bounds check ends at its prior value when the destination is
already a canonical RGBA buffer, and at the zero (transparent) color
otherwise — the non-canonical path allocates a fresh zeroed scratch buffer
and copies its whole bounds rectangle back over the destination. -/
theorem transform_oob_pixel_amended :
    ∀ (sampler : Graphics.Sampler) (a : Graphics.Affine) (d s : Graphics.Image) (x y : Int),
    Graphics.inRect d.bounds x y = true →
    Graphics.inBounds s.bounds (a.pt x y).1 (a.pt x y).2 = false →
    Graphics.Transform sampler a (some d) (some s) =
      Except.ok (Graphics.applyTransform sampler a d s) ∧
    (Graphics.applyTransform sampler a d s).pix x y =
      (if d.isRGBA = true then d.pix x y else Graphics.zeroColor) := by
  intro sampler a d s x y h1 h2
  refine ⟨rfl, ?_⟩
  simp [Graphics.applyTransform, h1, h2]

/-- C1 (witness): the amended theorem applied to the canonical RGBA
destination `wDst`, whose sentinel pixel survives the call unchanged. -/
theorem transform_oob_pixel_witness :
    Graphics.Transform Graphics.binterpRGBA Graphics.I
      (some Graphics.wDst) (some Graphics.cexSrc) =
      Except.ok (Graphics.applyTransform Graphics.binterpRGBA Graphics.I
        Graphics.wDst Graphics.cexSrc) ∧
    (Graphics.applyTransform Graphics.binterpRGBA Graphics.I
      Graphics.wDst Graphics.cexSrc).pix 0 0 =
      (if Graphics.wDst.isRGBA = true then Graphics.wDst.pix 0 0 else Graphics.zeroColor) :=
  transform_oob_pixel_amended Graphics.binterpRGBA Graphics.I Graphics.wDst Graphics.cexSrc 0 0
    (by rfl)
    (by norm_num [Graphics.inBounds, Graphics.Affine.pt, Graphics.I, Graphics.cexSrc,
      Graphics.FP.add, Graphics.FP.mul, Graphics.FP.ofInt, Graphics.FP.lt, Graphics.FP.ge,
      Graphics.FP.le, Graphics.fphalf, Graphics.fp0, Graphics.fp1])

/-- C2 (counterexample): the claim that a NaN coordinate fails the bounds
check is false — both comparisons in each rejection test compare false on
NaN, so `inBounds` accepts NaN coordinates. -/
theorem inBounds_nan_cex :
    Graphics.inBounds ⟨0, 0, 1, 1⟩ Graphics.FP.nan Graphics.FP.nan = true := by
  rfl

/-- C2 (amended): for finite coordinates `inBounds` is exactly the
half-open real comparison `Min.X ≤ x < Max.X` and `Min.Y ≤ y < Max.Y`; a
`±Inf` coordinate always fails the check (the pixel is skipped); but a NaN
coordinate is never rejected — every comparison with NaN is false, so in
particular `inBounds b NaN NaN = true` for every rectangle `b`, and the
sampler is invoked for such a pixel. -/
theorem inBounds_spec_amended :
    (∀ (b : Graphics.Rect) (qx qy : ℚ),
      Graphics.inBounds b (Graphics.FP.finite qx) (Graphics.FP.finite qy) = true ↔
        ((b.minX : ℚ) ≤ qx ∧ qx < (b.maxX : ℚ) ∧ (b.minY : ℚ) ≤ qy ∧ qy < (b.maxY : ℚ))) ∧
    (∀ (b : Graphics.Rect) (y : Graphics.FP),
      Graphics.inBounds b Graphics.FP.inf y = false ∧
      Graphics.inBounds b Graphics.FP.ninf y = false) ∧
    (∀ (b : Graphics.Rect) (x : Graphics.FP),
      Graphics.inBounds b x Graphics.FP.inf = false ∧
      Graphics.inBounds b x Graphics.FP.ninf = false) ∧
    (∀ b : Graphics.Rect,
      Graphics.inBounds b Graphics.FP.nan Graphics.FP.nan = true) := by
  have hb2 : ∀ c1 c2 : Bool,
      ((if c1 = true then false else if c2 = true then false else true) = true ↔
        (c1 = false ∧ c2 = false)) := by decide
  refine ⟨?_, fun b y => ⟨rfl, rfl⟩, ?_, fun b => rfl⟩
  · intro b qx qy
    rw [Graphics.inBounds, hb2]
    simp only [Bool.or_eq_false_iff, Graphics.FP.lt, Graphics.FP.ge, Graphics.FP.le,
      Graphics.FP.ofInt, decide_eq_false_iff_not, not_lt, not_le]
    tauto
  · intro b x
    cases x with
    | finite q =>
      constructor <;>
        cases hc : (Graphics.FP.lt (Graphics.FP.finite q) (Graphics.FP.ofInt b.minX) ||
          Graphics.FP.ge (Graphics.FP.finite q) (Graphics.FP.ofInt b.maxX)) <;>
        simp only [Graphics.inBounds, hc] <;> rfl
    | inf => exact ⟨rfl, rfl⟩
    | ninf => exact ⟨rfl, rfl⟩
    | nan => exact ⟨rfl, rfl⟩

/-- C5 (counterexample): the bottom row invariant does not survive
non-finite entries — `I` has bottom row `(0,0,1)`, yet `I.Scale 0 1` does
not: the scale matrix entry `1/0 = +Inf` meets the zero of the bottom row
in the product, `0 * Inf = NaN`. -/
theorem bottom_row_invariant_cex :
    Graphics.hasAffineBottom Graphics.I ∧
    ¬ Graphics.hasAffineBottom (Graphics.I.Scale Graphics.fp0 Graphics.fp1) := by
  refine ⟨⟨rfl, rfl, rfl⟩, fun h => ?_⟩
  have h6 := h.1
  norm_num [Graphics.Affine.Scale, Graphics.Affine.Mul, Graphics.I, Graphics.FP.mul,
    Graphics.FP.add, Graphics.FP.div, Graphics.fp0, Graphics.fp1] at h6
  exact Graphics.FP.noConfusion h6

/-- C5 (amended): the bottom row `(0,0,1)` is preserved exactly by `Mul`
when the right operand also has finite upper entries, and by each builder
when its composed matrix has finite entries: `Scale` when the reciprocals
of the factors are finite, `Rotate` for finite sincos values, `Shear` for
finite slopes with `1 - x*y` nonzero, `Translate` for finite offsets, and
`Center`/`CenterFit` additionally need the wrapped matrix itself to have
finite upper entries, since it appears as a right-hand factor. -/
theorem bottom_row_invariant_amended :
    (∀ a b : Graphics.Affine, Graphics.hasAffineBottom a → Graphics.hasAffineBottom b →
      Graphics.topFinite b = true → Graphics.hasAffineBottom (a.Mul b)) ∧
    (∀ (a : Graphics.Affine) (x y : Graphics.FP), Graphics.hasAffineBottom a →
      (Graphics.FP.div Graphics.fp1 x).isFinite = true →
      (Graphics.FP.div Graphics.fp1 y).isFinite = true →
      Graphics.hasAffineBottom (a.Scale x y)) ∧
    (∀ (a : Graphics.Affine) (s c : Graphics.FP), Graphics.hasAffineBottom a →
      s.isFinite = true → c.isFinite = true → Graphics.hasAffineBottom (a.Rotate s c)) ∧
    (∀ (a : Graphics.Affine) (x y : Graphics.FP), Graphics.hasAffineBottom a →
      x.isFinite = true → y.isFinite = true →
      Graphics.FP.sub Graphics.fp1 (Graphics.FP.mul x y) ≠ Graphics.fp0 →
      Graphics.hasAffineBottom (a.Shear x y)) ∧
    (∀ (a : Graphics.Affine) (x y : Graphics.FP), Graphics.hasAffineBottom a →
      x.isFinite = true → y.isFinite = true → Graphics.hasAffineBottom (a.Translate x y)) ∧
    (∀ (a : Graphics.Affine) (x y : Graphics.FP), Graphics.hasAffineBottom a →
      Graphics.topFinite a = true → x.isFinite = true → y.isFinite = true →
      Graphics.hasAffineBottom (a.Center x y)) ∧
    (∀ (a : Graphics.Affine) (dst src : Graphics.Rect), Graphics.hasAffineBottom a →
      Graphics.topFinite a = true → Graphics.hasAffineBottom (a.CenterFit dst src)) := by
  refine ⟨fun a b ha hb hf => mul_bottom ha hb hf, ?_, ?_, ?_, ?_, ?_, ?_⟩
  · intro a x y ha hx hy
    exact mul_bottom ha ⟨rfl, rfl, rfl⟩ (by
      simp only [Graphics.topFinite, Bool.and_eq_true]
      exact ⟨⟨⟨⟨⟨hx, rfl⟩, rfl⟩, rfl⟩, hy⟩, rfl⟩)
  · intro a s c ha hs hc
    exact mul_bottom ha ⟨rfl, rfl, rfl⟩ (by
      simp only [Graphics.topFinite, Bool.and_eq_true, Graphics.FP.isFinite_neg]
      exact ⟨⟨⟨⟨⟨hc, hs⟩, rfl⟩, hs⟩, hc⟩, rfl⟩)
  · intro a x y ha hx hy hd
    obtain ⟨qx, ex⟩ := Graphics.FP.isFinite_elim hx
    obtain ⟨qy, ey⟩ := Graphics.FP.isFinite_elim hy
    subst ex
    subst ey
    have hne : (1 : ℚ) + -(qx * qy) ≠ 0 := by
      intro h0
      apply hd
      simp [Graphics.FP.sub, Graphics.FP.mul, Graphics.FP.add, Graphics.FP.neg,
        Graphics.fp0, Graphics.fp1, h0]
    exact mul_bottom ha ⟨rfl, rfl, rfl⟩ (by
      simp [Graphics.topFinite, Graphics.FP.sub, Graphics.FP.mul, Graphics.FP.add,
        Graphics.FP.neg, Graphics.FP.div, Graphics.FP.isFinite, Graphics.fp0, Graphics.fp1,
        hne])
  · intro a x y ha hx hy
    exact translate_bottom ha hx hy
  · intro a x y ha hfa hx hy
    exact translate_bottom
      (mul_bottom (translate_bottom I_bottom (by simp [Graphics.FP.isFinite_neg, hx])
        (by simp [Graphics.FP.isFinite_neg, hy])) ha hfa) hx hy
  · intro a dst src ha hfa
    exact translate_bottom
      (mul_bottom (translate_bottom I_bottom
          (by simp only [Graphics.FP.isFinite_neg]; exact ofInt_add_div2_finite _ _)
          (by simp only [Graphics.FP.isFinite_neg]; exact ofInt_add_div2_finite _ _)) ha hfa)
      (ofInt_add_div2_finite _ _) (ofInt_add_div2_finite _ _)

/-- C5 (witness): the amended theorem applied at concrete inputs — the
product of the identity with itself and a non-degenerate shear of the
identity both keep the bottom row `(0,0,1)`. -/
theorem bottom_row_invariant_witness :
    Graphics.hasAffineBottom (Graphics.I.Mul Graphics.I) ∧
    Graphics.hasAffineBottom (Graphics.I.Shear Graphics.fp2 Graphics.fp2) := by
  constructor
  · exact bottom_row_invariant_amended.1 Graphics.I Graphics.I ⟨rfl, rfl, rfl⟩
      ⟨rfl, rfl, rfl⟩ (by rfl)
  · refine bottom_row_invariant_amended.2.2.2.1 Graphics.I Graphics.fp2 Graphics.fp2
      ⟨rfl, rfl, rfl⟩ rfl rfl ?_
    norm_num [Graphics.FP.sub, Graphics.FP.mul, Graphics.FP.add, Graphics.FP.neg,
      Graphics.fp0, Graphics.fp1, Graphics.fp2]

end Graphics
